import Mathlib

/-!
Verification of the `roots` crate core: the bracketed hybrid
Newton-Raphson/bisection root search, the polynomial evaluator, the
degree dispatcher, and the bounded root container.

The numeric type is modelled by the rationals.  Source files embedded:
src/numerical/polynom.rs (the Polynom trait impl for slices and
find_roots_sturm) and src/analytical/roots.rs (the Roots container).
The numerical module file declaring Sample, Interval, Convergency and
SearchError is not among the sources; those items are modelled from the
specification and marked as such.  Everything lives in the RootsLib
namespace to avoid clashes with Mathlib names.
-/

namespace RootsLib

/-- Modelled from the spec: the Sample struct of the missing numerical
module file, an (x, f(x)) pair. -/
structure Sample where
  x : ℚ
  y : ℚ
deriving DecidableEq

/-- Modelled from the spec: the Interval struct of the missing numerical
module file, a bracket of two samples.  The Rust field name end is a
Lean keyword, rendered end_. -/
structure Interval where
  begin : Sample
  end_ : Sample
deriving DecidableEq

/-- Modelled from the spec: the SearchError enum of the missing numerical
module file, the failure taxonomy of the iterative search. -/
inductive SearchError where
  | NoBracketing
  | NoConvergency
deriving DecidableEq

/-- Modelled from the spec: the Convergency trait of the missing numerical
module file, an interface with three decision operations is_root_found(y),
is_converged(interval), is_iteration_limit_reached(count). -/
structure Convergency where
  is_root_found : ℚ → Bool
  is_converged : Interval → Bool
  is_iteration_limit_reached : Nat → Bool

/-- Modelled from the spec: two samples bracket a sign change when their
y-values have opposite signs or one of them is itself a root
(Sample::is_bracketed_with of the missing numerical module file). -/
def Sample.is_bracketed_with (self other : Sample) : Bool :=
  decide (self.y = 0 ∨ other.y = 0 ∨ self.y * other.y < 0)

/-- Modelled from the spec: an interval is bracketed when its endpoints
bracket a sign change (Interval::is_bracketed of the missing numerical
module file). -/
def Interval.is_bracketed (self : Interval) : Bool :=
  self.begin.is_bracketed_with self.end_

/-- Modelled from the spec: middle() returns the arithmetic mean of
begin.x and end.x, not a stored field. -/
def Interval.middle (self : Interval) : ℚ :=
  (self.begin.x + self.end_.x) / 2

/-- Modelled from the spec: Interval::is_converged delegates the decision
to the convergence policy. -/
def Interval.is_converged (self : Interval) (convergency : Convergency) : Bool :=
  convergency.is_converged self

/-- Result of the combined evaluation, from polynom.rs. -/
structure ValueAndDerivative where
  value : Sample
  derivative : ℚ
deriving DecidableEq

/-- The loop of Polynom::value in polynom.rs: starting from (result, xn),
each coefficient step does result += a*xn; xn *= x.  The caller feeds the
reversed coefficient list, mirroring iter().rev(). -/
def Polynom.valueLoop : List ℚ → ℚ → ℚ × ℚ → ℚ × ℚ
  | [], _, st => st
  | c :: rest, x, (result, xn) => Polynom.valueLoop rest x (result + c * xn, xn * x)

/-- Horner-style evaluation of the normalized polynomial
x^n + a[0]*x^(n-1) + ... + a[n-1], from Polynom::value in polynom.rs:
fold over the reversed coefficients, then add xn for the implicit
leading coefficient 1. -/
def Polynom.value (a : List ℚ) (x : ℚ) : ℚ :=
  let st := Polynom.valueLoop a.reverse x (0, 1)
  st.1 + st.2

/-- The loop of Polynom::value_and_derivative in polynom.rs; the state is
(xn, value, xn1, derivative, n) and each coefficient step does
value += a*xn; derivative += a*n*xn1; xn1 = xn; xn *= x; n += 1. -/
def Polynom.vadLoop : List ℚ → ℚ → ℚ × ℚ × ℚ × ℚ × ℚ → ℚ × ℚ × ℚ × ℚ × ℚ
  | [], _, st => st
  | c :: rest, x, (xn, value, xn1, derivative, n) =>
      Polynom.vadLoop rest x (xn * x, value + c * xn, xn, derivative + c * n * xn1, n + 1)

/-- Combined value and derivative of the normalized polynomial, from
Polynom::value_and_derivative in polynom.rs. -/
def Polynom.value_and_derivative (a : List ℚ) (x : ℚ) : ValueAndDerivative :=
  match Polynom.vadLoop a.reverse x (1, 0, 0, 0, 0) with
  | (xn, value, xn1, derivative, n) =>
      { value := { x := x, y := value + xn }, derivative := derivative + n * xn1 }

/-- The trial-sample selection inside the loop of Polynom::find_root in
polynom.rs: evaluate f and f' at the midpoint; when the derivative is
nonzero, take the Newton-Raphson point if it stays in [begin.x, end.x]
and improves on the midpoint's residual, else the midpoint sample. -/
def Polynom.next_sample (a : List ℚ) (interval : Interval) : Sample :=
  let middle := Polynom.value_and_derivative a interval.middle
  if middle.derivative ≠ 0 then
    let newton_raphson := middle.value.x - middle.value.y / middle.derivative
    if newton_raphson ≥ interval.begin.x ∧ newton_raphson ≤ interval.end_.x then
      let newton_raphson_value := Polynom.value a newton_raphson
      if |newton_raphson_value| < |middle.value.y| then
        { x := newton_raphson, y := newton_raphson_value }
      else
        middle.value
    else
      middle.value
  else
    middle.value

/-- The endpoint-replacement step of the loop of Polynom::find_root in
polynom.rs: replace end with the trial sample when begin and the trial
sample bracket a sign change, otherwise replace begin with it. -/
def Polynom.find_root_step (a : List ℚ) (interval : Interval) : Interval :=
  let next_sample := Polynom.next_sample a interval
  if interval.begin.is_bracketed_with next_sample then
    { interval with end_ := next_sample }
  else
    { interval with begin := next_sample }

/-- The loop of Polynom::find_root in polynom.rs, indexed by fuel since
the Rust loop has no intrinsic bound; none means the loop has not exited
within fuel rounds.  The result carries the exit value, the interval at
exit and the iteration counter at exit, making the mutation of the Rust
interval argument and the counter observable. -/
def Polynom.find_root_loop (a : List ℚ) (convergency : Convergency) :
    Nat → Interval → Nat → Option ((Except SearchError ℚ) × Interval × Nat)
  | 0, _, _ => none
  | fuel + 1, interval, iter =>
    if convergency.is_root_found interval.begin.y then
      some (.ok interval.begin.x, interval, iter)
    else if convergency.is_root_found interval.end_.y then
      some (.ok interval.end_.x, interval, iter)
    else if interval.is_converged convergency then
      some (.ok interval.middle, interval, iter)
    else
      let interval' := Polynom.find_root_step a interval
      if convergency.is_iteration_limit_reached (iter + 1) then
        some (.error SearchError.NoConvergency, interval', iter + 1)
      else
        Polynom.find_root_loop a convergency fuel interval' (iter + 1)

/-- Polynom::find_root from polynom.rs: fail with NoBracketing when the
start interval is not bracketed, otherwise run the hybrid loop starting
from iteration counter 0. -/
def Polynom.find_root (a : List ℚ) (bracketed_start : Interval) (convergency : Convergency)
    (fuel : Nat) : Option ((Except SearchError ℚ) × Interval × Nat) :=
  if bracketed_start.is_bracketed then
    Polynom.find_root_loop a convergency fuel bracketed_start 0
  else
    some (.error SearchError.NoBracketing, bracketed_start, 0)

/-- The Roots container of roots.rs: a four-slot array (modelled as a
4-tuple, Rust [F; 4]), the number of valid roots, and the iteration
cursor. -/
structure Roots where
  roots : ℚ × ℚ × ℚ × ℚ
  num_roots : Nat
  cursor : Nat
deriving DecidableEq

/-- The derived Default of Roots in roots.rs: zeroed array, no roots,
cursor at 0. -/
def Roots.default : Roots :=
  { roots := (0, 0, 0, 0), num_roots := 0, cursor := 0 }

/-- Roots::add_new_root from roots.rs.  The insertion logic inside the
capacity check is entirely commented out in the source, so the body is
the capacity test with no effect in either branch. -/
def Roots.add_new_root (self : Roots) (root : ℚ) : Roots :=
  if self.num_roots < 4 then self else self

/-- Roots::zero from roots.rs. -/
def Roots.zero : Roots := Roots.default

/-- Roots::one from roots.rs. -/
def Roots.one (root : ℚ) : Roots :=
  { roots := (root, 0, 0, 0), num_roots := 1, cursor := 0 }

/-- Roots::two from roots.rs. -/
def Roots.two (root1 root2 : ℚ) : Roots :=
  { roots := (root1, root2, 0, 0), num_roots := 2, cursor := 0 }

/-- Roots::three from roots.rs. -/
def Roots.three (root1 root2 root3 : ℚ) : Roots :=
  { roots := (root1, root2, root3, 0), num_roots := 3, cursor := 0 }

/-- Roots::four from roots.rs. -/
def Roots.four (root1 root2 root3 root4 : ℚ) : Roots :=
  { roots := (root1, root2, root3, root4), num_roots := 4, cursor := 0 }

/-- Modelled from the spec: the empty root set written Roots::No([]) in
find_roots_sturm; a constructor of that name is absent from roots.rs
(the container there is a struct), and the spec says a length-0
coefficient sequence yields an empty root set. -/
def Roots.No : Roots := Roots.default

/-- find_roots_sturm from polynom.rs: dispatch on the coefficient-sequence
length.  The four closed-form solvers live in analytical source files that
are not among the sources and are declared external collaborators by the
spec, so they are taken as parameters. -/
def find_roots_sturm (find_roots_linear : ℚ → ℚ → Roots)
    (find_roots_quadratic : ℚ → ℚ → ℚ → Roots)
    (find_roots_cubic : ℚ → ℚ → ℚ → ℚ → Roots)
    (find_roots_quartic : ℚ → ℚ → ℚ → ℚ → ℚ → Roots)
    (a : List ℚ) : Option Roots :=
  match a with
  | [] => some Roots.No
  | [a0] => some (find_roots_linear 1 a0)
  | [a0, a1] => some (find_roots_quadratic 1 a0 a1)
  | [a0, a1, a2] => some (find_roots_cubic 1 a0 a1 a2)
  | [a0, a1, a2, a3] => some (find_roots_quartic 1 a0 a1 a2 a3)
  | _ => none

/-- Value of a polynomial given by its low-order-first coefficient list,
with no implicit leading coefficient; used to give closed forms to the
loops above. -/
def polyLow : List ℚ → ℚ → ℚ
  | [], _ => 0
  | c :: t, x => c + x * polyLow t x

/-- Derivative of the polynomial given by its low-order-first coefficient
list (derivative of c + x*p is p + x*p'). -/
def derivLow : List ℚ → ℚ → ℚ
  | [], _ => 0
  | c :: t, x => polyLow t x + x * derivLow t x

/-- For a low-order-first list l, the quantity len(l) * x^(len(l)-1) with
the empty case folded to 0, avoiding truncated subtraction. -/
def dPow : List ℚ → ℚ → ℚ
  | [], _ => 0
  | _ :: t, x => ((t.length : ℚ) + 1) * x ^ t.length

/-- The lagged power xn1 after the value_and_derivative loop consumes l,
starting from power accumulator xn and lagged accumulator xn1. -/
def lagPow : List ℚ → ℚ → ℚ → ℚ → ℚ
  | [], _, _, xn1 => xn1
  | _ :: t, x, xn, _ => xn * x ^ t.length

/-- First-step contribution of the derivative accumulator over l from
power accumulator xn and lagged accumulator xn1. -/
def dShift : List ℚ → ℚ → ℚ → ℚ → ℚ
  | [], _, _, _ => 0
  | c :: t, x, xn, xn1 => c * xn1 + xn * polyLow t x

/-- The claim's normalized-polynomial value, written as in the spec:
x^n + a[0]*x^(n-1) + ... + a[n-1]. -/
def normPolyValue (a : List ℚ) (x : ℚ) : ℚ :=
  x ^ a.length + ∑ i ∈ Finset.range a.length, a.getD i 0 * x ^ (a.length - 1 - i)

/-- The claim's formal derivative of the normalized polynomial, written as
in the spec: n*x^(n-1) + SUM a[i]*(n-1-i)*x^(n-2-i). -/
def normPolyDeriv (a : List ℚ) (x : ℚ) : ℚ :=
  (a.length : ℚ) * x ^ (a.length - 1) +
    ∑ i ∈ Finset.range a.length,
      a.getD i 0 * ((a.length - 1 - i : ℕ) : ℚ) * x ^ (a.length - 2 - i)

/-- A concrete convergence policy for instantiating the search theorems:
exact roots, convergence below width 1/100, limit at 100 iterations. -/
def convDemo : Convergency :=
  { is_root_found := fun y => decide (y = 0),
    is_converged := fun I => decide (I.end_.x - I.begin.x < 1 / 100),
    is_iteration_limit_reached := fun count => decide (100 ≤ count) }

/-- A concrete convergence policy whose iteration budget is exhausted at
the very first check. -/
def convOne : Convergency :=
  { is_root_found := fun y => decide (y = 0),
    is_converged := fun _ => false,
    is_iteration_limit_reached := fun count => decide (1 ≤ count) }

/-- A concrete bracketed interval for f(x) = x - 1 on [0, 2]. -/
def demoInterval : Interval :=
  { begin := { x := 0, y := -1 }, end_ := { x := 2, y := 1 } }

lemma valueLoop_closed (l : List ℚ) : ∀ x r xn : ℚ,
    Polynom.valueLoop l x (r, xn) = (r + xn * polyLow l x, xn * x ^ l.length) := by
  induction l with
  | nil => intro x r xn; simp [Polynom.valueLoop, polyLow]
  | cons c t ih =>
      intro x r xn
      simp only [Polynom.valueLoop, ih, polyLow, List.length_cons, Prod.mk.injEq]
      constructor <;> ring

lemma value_closed (a : List ℚ) (x : ℚ) :
    Polynom.value a x = polyLow a.reverse x + x ^ a.length := by
  simp [Polynom.value, valueLoop_closed]

lemma dShift_shift (t : List ℚ) (x xn : ℚ) :
    dShift t x (xn * x) xn = xn * polyLow t x := by
  cases t <;> simp [dShift, polyLow] <;> ring

lemma lagPow_shift (t : List ℚ) (x xn : ℚ) :
    lagPow t x (xn * x) xn = xn * x ^ t.length := by
  cases t with
  | nil => simp [lagPow]
  | cons c t' => simp [lagPow, pow_succ]; ring

lemma vadLoop_closed (l : List ℚ) : ∀ x xn v xn1 d n : ℚ,
    Polynom.vadLoop l x (xn, v, xn1, d, n) =
      (xn * x ^ l.length,
       v + xn * polyLow l x,
       lagPow l x xn xn1,
       d + n * dShift l x xn xn1 + xn * derivLow l x,
       n + l.length) := by
  induction l with
  | nil =>
      intro x xn v xn1 d n
      simp [Polynom.vadLoop, polyLow, derivLow, lagPow, dShift]
  | cons c t ih =>
      intro x xn v xn1 d n
      simp only [Polynom.vadLoop, ih]
      rw [lagPow_shift, dShift_shift]
      simp only [polyLow, derivLow, lagPow, dShift, List.length_cons, Prod.mk.injEq]
      refine ⟨by ring, by ring, trivial, by ring, by push_cast; ring⟩

lemma value_and_derivative_closed (a : List ℚ) (x : ℚ) :
    Polynom.value_and_derivative a x =
      { value := { x := x, y := polyLow a.reverse x + x ^ a.length },
        derivative := derivLow a.reverse x + (a.length : ℚ) * lagPow a.reverse x 1 0 } := by
  simp only [Polynom.value_and_derivative, vadLoop_closed]
  simp [List.length_reverse]

lemma length_mul_lagPow (l : List ℚ) (x : ℚ) :
    (l.length : ℚ) * lagPow l x 1 0 = dPow l x := by
  cases l with
  | nil => simp [lagPow, dPow]
  | cons c t => simp [lagPow, dPow]

lemma polyLow_append (l : List ℚ) (c x : ℚ) :
    polyLow (l ++ [c]) x = polyLow l x + c * x ^ l.length := by
  induction l with
  | nil => simp [polyLow]
  | cons d t ih => simp [polyLow, ih, pow_succ]; ring

lemma x_mul_dPow (l : List ℚ) (x : ℚ) :
    x * dPow l x = (l.length : ℚ) * x ^ l.length := by
  cases l with
  | nil => simp [dPow]
  | cons d t => simp [dPow, pow_succ]; push_cast; ring

lemma dPow_eq (l : List ℚ) (x : ℚ) :
    dPow l x = (l.length : ℚ) * x ^ (l.length - 1) := by
  cases l with
  | nil => simp [dPow]
  | cons d t => simp [dPow]

lemma dPow_append (l : List ℚ) (c x : ℚ) :
    dPow (l ++ [c]) x = ((l.length : ℚ) + 1) * x ^ l.length := by
  cases l with
  | nil => simp [dPow]
  | cons d t => simp [dPow, List.length_append]

lemma derivLow_append (l : List ℚ) (c x : ℚ) :
    derivLow (l ++ [c]) x = derivLow l x + c * dPow l x := by
  induction l with
  | nil => simp [derivLow, polyLow, dPow]
  | cons d t ih =>
      simp only [List.cons_append, List.append_eq, derivLow, ih, polyLow_append,
        List.length_cons]
      rw [show dPow (d :: t) x = ((t.length : ℚ) + 1) * x ^ t.length from rfl]
      linear_combination c * x_mul_dPow t x

lemma vad_derivative_closed (a : List ℚ) (x : ℚ) :
    (Polynom.value_and_derivative a x).derivative =
      derivLow a.reverse x + dPow a.reverse x := by
  rw [value_and_derivative_closed]
  simp only []
  rw [← List.length_reverse a, length_mul_lagPow]

lemma value_eq_norm (a : List ℚ) (x : ℚ) :
    Polynom.value a x = normPolyValue a x := by
  induction a with
  | nil => simp [value_closed, polyLow, normPolyValue]
  | cons c t ih =>
      have hp : polyLow t.reverse x = normPolyValue t x - x ^ t.length := by
        have h := value_closed t x
        rw [ih] at h
        linarith
      have hsum : ∀ i ∈ Finset.range t.length,
          (c :: t).getD (i + 1) 0 * x ^ (t.length + 1 - 1 - (i + 1)) =
            t.getD i 0 * x ^ (t.length - 1 - i) := by
        intro i hi
        simp only [List.getD_cons_succ]
        have e1 : t.length + 1 - 1 - (i + 1) = t.length - 1 - i := by omega
        rw [e1]
      have hnorm : ∑ i ∈ Finset.range t.length, t.getD i 0 * x ^ (t.length - 1 - i) =
          normPolyValue t x - x ^ t.length := by
        rw [normPolyValue]; ring
      rw [value_closed, List.reverse_cons, polyLow_append, List.length_reverse,
        List.length_cons, hp]
      conv_rhs => rw [normPolyValue]
      rw [List.length_cons, Finset.sum_range_succ', Finset.sum_congr rfl hsum, hnorm]
      simp only [List.getD_cons_zero, Nat.sub_zero, Nat.add_sub_cancel]
      ring

lemma deriv_eq_norm (a : List ℚ) (x : ℚ) :
    (Polynom.value_and_derivative a x).derivative = normPolyDeriv a x := by
  induction a with
  | nil => simp [vad_derivative_closed, derivLow, dPow, normPolyDeriv]
  | cons c t ih =>
      rw [vad_derivative_closed] at ih ⊢
      have hsum : ∀ i ∈ Finset.range t.length,
          (c :: t).getD (i + 1) 0 * ((t.length + 1 - 1 - (i + 1) : ℕ) : ℚ) *
              x ^ (t.length + 1 - 2 - (i + 1)) =
            t.getD i 0 * ((t.length - 1 - i : ℕ) : ℚ) * x ^ (t.length - 2 - i) := by
        intro i hi
        simp only [List.getD_cons_succ]
        have e1 : t.length + 1 - 1 - (i + 1) = t.length - 1 - i := by omega
        have e2 : t.length + 1 - 2 - (i + 1) = t.length - 2 - i := by omega
        rw [e1, e2]
      have hnorm : ∑ i ∈ Finset.range t.length,
          t.getD i 0 * ((t.length - 1 - i : ℕ) : ℚ) * x ^ (t.length - 2 - i) =
          normPolyDeriv t x - (t.length : ℚ) * x ^ (t.length - 1) := by
        rw [normPolyDeriv]; ring
      rw [List.reverse_cons, derivLow_append, dPow_append, List.length_reverse,
        dPow_eq, List.length_reverse]
      conv_rhs => rw [normPolyDeriv]
      rw [List.length_cons, Finset.sum_range_succ', Finset.sum_congr rfl hsum, hnorm,
        ← ih, dPow_eq, List.length_reverse]
      simp only [List.getD_cons_zero, Nat.sub_zero]
      have he : t.length + 1 - 2 = t.length - 1 := by omega
      have he2 : t.length + 1 - 1 = t.length := by omega
      rw [he, he2]
      push_cast
      ring

lemma bracket_replacement_preserves (I : Interval) (s : Sample)
    (h : I.is_bracketed = true) :
    (if I.begin.is_bracketed_with s then { I with end_ := s }
     else { I with begin := s }).is_bracketed = true := by
  by_cases hb : I.begin.is_bracketed_with s = true
  · simp only [hb, if_true]
    exact hb
  · simp only [hb, if_false, Bool.false_eq_true, ite_false]
    simp only [Interval.is_bracketed, Sample.is_bracketed_with,
      decide_eq_true_eq] at h hb ⊢
    push_neg at hb
    obtain ⟨hby, hsy, hbs⟩ := hb
    have hbs' : 0 < I.begin.y * s.y :=
      lt_of_le_of_ne hbs (Ne.symm (mul_ne_zero hby hsy))
    rcases h with hb0 | he0 | hbe
    · exact absurd hb0 hby
    · exact Or.inr (Or.inl he0)
    · refine Or.inr (Or.inr ?_)
      have h3 : (I.begin.y * s.y) * (I.begin.y * I.end_.y) < 0 :=
        mul_neg_of_pos_of_neg hbs' hbe
      have h4 : (I.begin.y) ^ 2 * (s.y * I.end_.y) < 0 := by
        have : (I.begin.y) ^ 2 * (s.y * I.end_.y) =
            (I.begin.y * s.y) * (I.begin.y * I.end_.y) := by ring
        rw [this]; exact h3
      have h5 : 0 < (I.begin.y) ^ 2 := by positivity
      by_contra hc
      push_neg at hc
      have := mul_nonneg (le_of_lt h5) hc
      linarith

lemma find_root_loop_never_no_bracketing (a : List ℚ) (conv : Convergency) :
    ∀ (fuel : Nat) (I : Interval) (iter : Nat) (r : Except SearchError ℚ)
      (I' : Interval) (k : Nat),
      Polynom.find_root_loop a conv fuel I iter = some (r, I', k) →
      r ≠ Except.error SearchError.NoBracketing := by
  intro fuel
  induction fuel with
  | zero =>
      intro I iter r I' k h
      simp [Polynom.find_root_loop] at h
  | succ m ih =>
      intro I iter r I' k h
      simp only [Polynom.find_root_loop] at h
      split at h
      · simp only [Option.some.injEq, Prod.mk.injEq] at h
        obtain ⟨hr, -, -⟩ := h
        subst hr
        intro hc
        exact Except.noConfusion hc
      · split at h
        · simp only [Option.some.injEq, Prod.mk.injEq] at h
          obtain ⟨hr, -, -⟩ := h
          subst hr
          intro hc
          exact Except.noConfusion hc
        · split at h
          · simp only [Option.some.injEq, Prod.mk.injEq] at h
            obtain ⟨hr, -, -⟩ := h
            subst hr
            intro hc
            exact Except.noConfusion hc
          · split at h
            · simp only [Option.some.injEq, Prod.mk.injEq] at h
              obtain ⟨hr, -, -⟩ := h
              subst hr
              intro hc
              simp at hc
            · exact ih _ _ _ _ _ h

/-- Exit characterization for ok results of the hybrid loop: the value
returned is the begin endpoint, the end endpoint, or the midpoint of the
exit interval, under the corresponding policy verdicts in source order. -/
def okExit (conv : Convergency) (I' : Interval) (v : ℚ) : Prop :=
  (conv.is_root_found I'.begin.y = true ∧ v = I'.begin.x) ∨
  (conv.is_root_found I'.begin.y = false ∧ conv.is_root_found I'.end_.y = true ∧
    v = I'.end_.x) ∨
  (conv.is_root_found I'.begin.y = false ∧ conv.is_root_found I'.end_.y = false ∧
    I'.is_converged conv = true ∧ v = I'.middle)

lemma find_root_loop_total (a : List ℚ) (conv : Convergency) (n : Nat)
    (hn : conv.is_iteration_limit_reached n = true) :
    ∀ (fuel iter : Nat) (I : Interval), iter < n → n ≤ iter + fuel →
      ∃ r I' k, Polynom.find_root_loop a conv fuel I iter = some (r, I', k) ∧
        iter ≤ k ∧ k ≤ n ∧
        (∀ j, iter < j → j < k → conv.is_iteration_limit_reached j = false) ∧
        (∀ v, r = Except.ok v → okExit conv I' v) ∧
        (∀ e, r = Except.error e →
          e = SearchError.NoConvergency ∧ conv.is_iteration_limit_reached k = true) := by
  intro fuel
  induction fuel with
  | zero => intro iter I h1 h2; omega
  | succ m ih =>
      intro iter I h1 h2
      simp only [Polynom.find_root_loop]
      split
      · rename_i c1
        refine ⟨_, _, _, rfl, le_refl _, le_of_lt h1, ?_, ?_, ?_⟩
        · intro j hj1 hj2; omega
        · intro v hv
          simp only [Except.ok.injEq] at hv
          exact Or.inl ⟨c1, hv.symm⟩
        · intro e he; exact absurd he (by simp)
      · rename_i c1
        split
        · rename_i c2
          refine ⟨_, _, _, rfl, le_refl _, le_of_lt h1, ?_, ?_, ?_⟩
          · intro j hj1 hj2; omega
          · intro v hv
            simp only [Except.ok.injEq] at hv
            exact Or.inr (Or.inl ⟨Bool.not_eq_true _ ▸ eq_false_of_ne_true c1, c2, hv.symm⟩)
          · intro e he; exact absurd he (by simp)
        · rename_i c2
          split
          · rename_i c3
            refine ⟨_, _, _, rfl, le_refl _, le_of_lt h1, ?_, ?_, ?_⟩
            · intro j hj1 hj2; omega
            · intro v hv
              simp only [Except.ok.injEq] at hv
              exact Or.inr (Or.inr ⟨eq_false_of_ne_true c1, eq_false_of_ne_true c2,
                c3, hv.symm⟩)
            · intro e he; exact absurd he (by simp)
          · split
            · rename_i hlimit
              refine ⟨_, _, _, rfl, by omega, by omega, ?_, ?_, ?_⟩
              · intro j hj1 hj2; omega
              · intro v hv
                exact absurd hv (by simp)
              · intro e he
                simp only [Except.error.injEq] at he
                exact ⟨he.symm, hlimit⟩
            · rename_i hlimit
              have hne : iter + 1 < n := by
                rcases Nat.lt_or_ge (iter + 1) n with h | h
                · exact h
                · have : iter + 1 = n := by omega
                  rw [this] at hlimit
                  rw [hn] at hlimit
                  exact absurd rfl hlimit
              obtain ⟨r, I', k, heq, hk1, hk2, hjs, hok, herr⟩ :=
                ih (iter + 1) (Polynom.find_root_step a I) hne (by omega)
              refine ⟨r, I', k, heq, by omega, hk2, ?_, hok, herr⟩
              intro j hj1 hj2
              by_cases hj : j = iter + 1
              · subst hj
                simpa using hlimit
              · exact hjs j (by omega) hj2

/-- C7: for every coefficient sequence a of length n and every x, value(x)
equals the normalized polynomial value x^n + a[0]*x^(n-1) + ... + a[n-1]
(leading coefficient implicitly 1); in particular, for the empty
coefficient sequence, value(x) = 1 for every x. -/
theorem value_is_normalized_polynomial :
    (∀ (a : List ℚ) (x : ℚ), Polynom.value a x = normPolyValue a x) ∧
    (∀ x : ℚ, Polynom.value [] x = 1) := by
  refine ⟨value_eq_norm, ?_⟩
  intro x
  simp [value_closed, polyLow]

/-- C8: for every coefficient sequence a of length n and every x,
value_and_derivative(x).derivative equals the formal derivative
n*x^(n-1) + SUM a[i]*(n-1-i)*x^(n-2-i) of the normalized polynomial; and
for the sequence [1, -2, 1], at x = 0 the result is value {x:0, y:1} with
derivative -2, at x = 1 value 1 with derivative 3, and at x = -1 value 3
with derivative -1. -/
theorem value_and_derivative_is_formal_derivative :
    (∀ (a : List ℚ) (x : ℚ),
      (Polynom.value_and_derivative a x).derivative = normPolyDeriv a x) ∧
    Polynom.value_and_derivative [1, -2, 1] 0 =
      { value := { x := 0, y := 1 }, derivative := -2 } ∧
    Polynom.value_and_derivative [1, -2, 1] 1 =
      { value := { x := 1, y := 1 }, derivative := 3 } ∧
    Polynom.value_and_derivative [1, -2, 1] (-1) =
      { value := { x := -1, y := 3 }, derivative := -1 } := by
  refine ⟨deriv_eq_norm, ?_, ?_, ?_⟩ <;>
    norm_num [Polynom.value_and_derivative, Polynom.vadLoop]

/-- C9: round-trip between the two evaluators: for every coefficient
sequence and every x, value_and_derivative(x).value.y equals value(x), and
value_and_derivative(x).value.x equals the input x. -/
theorem value_and_derivative_round_trip (a : List ℚ) (x : ℚ) :
    (Polynom.value_and_derivative a x).value.y = Polynom.value a x ∧
    (Polynom.value_and_derivative a x).value.x = x := by
  rw [value_and_derivative_closed, value_closed]
  exact ⟨rfl, rfl⟩

/-- C10: for every Roots container in any state and every value r, calling
add_new_root(r) leaves the container completely unchanged, so no root is
ever added through this method (the insertion logic is commented out in
the source). -/
theorem add_new_root_is_noop (r : Roots) (root : ℚ) :
    r.add_new_root root = r := by
  simp [Roots.add_new_root]

/-- C1: find_root fails immediately with NoBracketing, performing no
iteration and leaving the interval unchanged, exactly when the initial
interval's endpoints do not straddle a sign change and neither endpoint is
itself a root; for every interval that is bracketed at entry, find_root
never returns NoBracketing. -/
theorem find_root_no_bracketing_iff (a : List ℚ) (I : Interval) (conv : Convergency)
    (fuel : Nat) :
    (¬(I.begin.y = 0 ∨ I.end_.y = 0 ∨ I.begin.y * I.end_.y < 0) →
      Polynom.find_root a I conv fuel =
        some (Except.error SearchError.NoBracketing, I, 0)) ∧
    ((I.begin.y = 0 ∨ I.end_.y = 0 ∨ I.begin.y * I.end_.y < 0) →
      ∀ r I' k, Polynom.find_root a I conv fuel = some (r, I', k) →
        r ≠ Except.error SearchError.NoBracketing) := by
  constructor
  · intro h
    have hb : I.is_bracketed = false := by
      simp only [Interval.is_bracketed, Sample.is_bracketed_with]
      exact decide_eq_false h
    simp [Polynom.find_root, hb]
  · intro h r I' k heq
    have hb : I.is_bracketed = true := by
      simp only [Interval.is_bracketed, Sample.is_bracketed_with]
      exact decide_eq_true h
    rw [Polynom.find_root.eq_def, hb] at heq
    simp only [if_true] at heq
    exact find_root_loop_never_no_bracketing a conv fuel I 0 r I' k heq

/-- C1 witness: on the unbracketed interval with endpoint values 1 and 2,
find_root fails immediately with NoBracketing, leaving the interval and
the iteration counter untouched. -/
theorem find_root_no_bracketing_iff_witness :
    Polynom.find_root [-1] { begin := { x := 0, y := 1 }, end_ := { x := 1, y := 2 } }
        convDemo 5 =
      some (Except.error SearchError.NoBracketing,
        { begin := { x := 0, y := 1 }, end_ := { x := 1, y := 2 } }, 0) :=
  (find_root_no_bracketing_iff [-1]
    { begin := { x := 0, y := 1 }, end_ := { x := 1, y := 2 } } convDemo 5).1
    (by norm_num)

/-- C2: for every bracketed interval and every convergence policy whose
iteration-limit predicate holds at some count n > 0, find_root (run with
at least n rounds of fuel) terminates: it exits within at most n
iterations, every ok exit is via the root-found or converged conditions,
iteration counts before the exit were not limit-reached, and any error
exit is NoConvergency at a limit-reached count — so NoConvergency is
returned exactly when the budget is exhausted before the root-found or
converged conditions are satisfied. -/
theorem find_root_terminates (a : List ℚ) (I : Interval) (conv : Convergency)
    (n fuel : Nat) (hn : conv.is_iteration_limit_reached n = true) (h0 : 0 < n)
    (hfuel : n ≤ fuel) (hbr : I.is_bracketed = true) :
    ∃ r I' k, Polynom.find_root a I conv fuel = some (r, I', k) ∧ k ≤ n ∧
      (∀ j, 0 < j → j < k → conv.is_iteration_limit_reached j = false) ∧
      (∀ v, r = Except.ok v → okExit conv I' v) ∧
      (∀ e, r = Except.error e →
        e = SearchError.NoConvergency ∧ conv.is_iteration_limit_reached k = true) := by
  obtain ⟨r, I', k, heq, -, hk2, hjs, hok, herr⟩ :=
    find_root_loop_total a conv n hn fuel 0 I h0 (by omega)
  refine ⟨r, I', k, ?_, hk2, fun j hj1 hj2 => hjs j hj1 hj2, hok, herr⟩
  rw [Polynom.find_root.eq_def, hbr]
  simp only [if_true]
  exact heq

/-- C2 witness: with the root already at the begin endpoint and an
iteration budget of one, the search exits at once. -/
theorem find_root_terminates_witness :
    ∃ r I' k, Polynom.find_root [-1] demoInterval convOne 1 = some (r, I', k) ∧
      k ≤ 1 ∧
      (∀ j, 0 < j → j < k → convOne.is_iteration_limit_reached j = false) ∧
      (∀ v, r = Except.ok v → okExit convOne I' v) ∧
      (∀ e, r = Except.error e →
        e = SearchError.NoConvergency ∧ convOne.is_iteration_limit_reached k = true) :=
  find_root_terminates [-1] demoInterval convOne 1 1 rfl (by norm_num) (le_refl 1)
    (by simp [demoInterval, Interval.is_bracketed, Sample.is_bracketed_with])

/-- C3: the endpoint replacement of a find_root iteration (replace end
with the trial sample when begin and the trial sample bracket a sign
change, else replace begin with it) preserves the bracketing invariant. -/
theorem find_root_step_preserves_bracketing (a : List ℚ) (I : Interval)
    (h : I.is_bracketed = true) :
    (Polynom.find_root_step a I).is_bracketed = true := by
  simp only [Polynom.find_root_step]
  exact bracket_replacement_preserves I (Polynom.next_sample a I) h

/-- C3 witness: one replacement step on a concrete bracketed interval for
f(x) = x - 1 yields a bracketed interval again. -/
theorem find_root_step_preserves_bracketing_witness :
    (Polynom.find_root_step [-1] demoInterval).is_bracketed = true :=
  find_root_step_preserves_bracketing [-1] demoInterval
    (by simp [demoInterval, Interval.is_bracketed, Sample.is_bracketed_with])

/-- C4: in an iteration that reaches the trial-sample computation, the
trial sample is the Newton-Raphson point x' = midpoint.x -
f(midpoint)/f'(midpoint) with y = f(x') when f'(midpoint) is nonzero, x'
lies within [begin.x, end.x] and |f(x')| < |f(midpoint)|; in every other
case (including f'(midpoint) = 0) the trial sample is the midpoint
sample. -/
theorem next_sample_characterization (a : List ℚ) (I : Interval)
    (m : ValueAndDerivative) (hm : m = Polynom.value_and_derivative a I.middle)
    (nr : ℚ) (hnr : nr = m.value.x - m.value.y / m.derivative) :
    ((m.derivative ≠ 0 ∧ nr ≥ I.begin.x ∧ nr ≤ I.end_.x ∧
        |Polynom.value a nr| < |m.value.y|) →
      Polynom.next_sample a I = { x := nr, y := Polynom.value a nr }) ∧
    (¬(m.derivative ≠ 0 ∧ nr ≥ I.begin.x ∧ nr ≤ I.end_.x ∧
        |Polynom.value a nr| < |m.value.y|) →
      Polynom.next_sample a I = m.value) := by
  subst hnr
  subst hm
  constructor
  · rintro ⟨h1, h2, h3, h4⟩
    simp only [Polynom.next_sample]
    rw [if_pos h1, if_pos ⟨h2, h3⟩, if_pos h4]
  · intro hneg
    simp only [Polynom.next_sample]
    by_cases h1 : (Polynom.value_and_derivative a I.middle).derivative ≠ 0
    · rw [if_pos h1]
      by_cases h23 : (Polynom.value_and_derivative a I.middle).value.x -
            (Polynom.value_and_derivative a I.middle).value.y /
              (Polynom.value_and_derivative a I.middle).derivative ≥ I.begin.x ∧
          (Polynom.value_and_derivative a I.middle).value.x -
            (Polynom.value_and_derivative a I.middle).value.y /
              (Polynom.value_and_derivative a I.middle).derivative ≤ I.end_.x
      · rw [if_pos h23]
        by_cases h4 : |Polynom.value a
            ((Polynom.value_and_derivative a I.middle).value.x -
              (Polynom.value_and_derivative a I.middle).value.y /
                (Polynom.value_and_derivative a I.middle).derivative)| <
            |(Polynom.value_and_derivative a I.middle).value.y|
        · exact absurd ⟨h1, h23.1, h23.2, h4⟩ hneg
        · rw [if_neg h4]
      · rw [if_neg h23]
    · rw [if_neg h1]

/-- C4 witness: for f(x) = x - 2 on the bracket [0, 3], the midpoint is
3/2 with residual -1/2 and derivative 1; the Newton point 2 lies in the
bracket and has residual 0, so it is the trial sample. -/
theorem next_sample_characterization_witness :
    Polynom.next_sample [-2]
        { begin := { x := 0, y := -2 }, end_ := { x := 3, y := 1 } } =
      { x := 2, y := 0 } := by
  have h := (next_sample_characterization [-2]
      { begin := { x := 0, y := -2 }, end_ := { x := 3, y := 1 } }
      { value := { x := 3 / 2, y := -1 / 2 }, derivative := 1 }
      (by norm_num [Polynom.value_and_derivative, Polynom.vadLoop, Interval.middle])
      2 (by norm_num)).1
      ⟨by norm_num, by norm_num, by norm_num,
        by norm_num [Polynom.value, Polynom.valueLoop]⟩
  rw [h]
  norm_num [Polynom.value, Polynom.valueLoop]

/-- C5: for every bracketed interval, if the policy reports begin.y as
root-found, find_root returns Ok(begin.x) immediately (begin checked
before end); otherwise if end.y is root-found it returns Ok(end.x);
otherwise if the interval is already converged it returns Ok of the
midpoint immediately — in all three cases with the interval unchanged and
the iteration counter still 0. -/
theorem find_root_immediate (a : List ℚ) (I : Interval) (conv : Convergency)
    (fuel : Nat) (hbr : I.is_bracketed = true) :
    (conv.is_root_found I.begin.y = true →
      Polynom.find_root a I conv (fuel + 1) = some (Except.ok I.begin.x, I, 0)) ∧
    (conv.is_root_found I.begin.y = false → conv.is_root_found I.end_.y = true →
      Polynom.find_root a I conv (fuel + 1) = some (Except.ok I.end_.x, I, 0)) ∧
    (conv.is_root_found I.begin.y = false → conv.is_root_found I.end_.y = false →
      I.is_converged conv = true →
      Polynom.find_root a I conv (fuel + 1) = some (Except.ok I.middle, I, 0)) := by
  refine ⟨?_, ?_, ?_⟩
  · intro h1
    rw [Polynom.find_root.eq_def, hbr]
    simp only [if_true, Polynom.find_root_loop, h1, ite_true]
  · intro h1 h2
    rw [Polynom.find_root.eq_def, hbr]
    simp only [if_true, Polynom.find_root_loop, h1, h2, Bool.false_eq_true, ite_false,
      ite_true]
  · intro h1 h2 h3
    rw [Polynom.find_root.eq_def, hbr]
    simp only [if_true, Polynom.find_root_loop, h1, h2, h3, Bool.false_eq_true,
      ite_false, ite_true]

/-- C5 witness: with the root sitting at the begin endpoint of a bracketed
interval, find_root returns that endpoint at iteration 0 with the interval
unchanged. -/
theorem find_root_immediate_witness :
    Polynom.find_root [-1] { begin := { x := 1, y := 0 }, end_ := { x := 2, y := 1 } }
        convDemo (4 + 1) =
      some (Except.ok 1, { begin := { x := 1, y := 0 }, end_ := { x := 2, y := 1 } }, 0) :=
  (find_root_immediate [-1]
      { begin := { x := 1, y := 0 }, end_ := { x := 2, y := 1 } } convDemo 4
      (by simp [Interval.is_bracketed, Sample.is_bracketed_with])).1
    (by simp [convDemo])

/-- C6: find_roots_sturm dispatches purely on coefficient-sequence length:
length 0 yields Some of the empty root set; lengths 1 to 4 yield Some of
exactly the corresponding closed-form solver's output with leading
coefficient 1; every length of at least 5 yields None. -/
theorem find_roots_sturm_dispatch (lin : ℚ → ℚ → Roots) (quad : ℚ → ℚ → ℚ → Roots)
    (cub : ℚ → ℚ → ℚ → ℚ → Roots) (quart : ℚ → ℚ → ℚ → ℚ → ℚ → Roots) :
    find_roots_sturm lin quad cub quart [] = some Roots.zero ∧
    (∀ a0, find_roots_sturm lin quad cub quart [a0] = some (lin 1 a0)) ∧
    (∀ a0 a1, find_roots_sturm lin quad cub quart [a0, a1] = some (quad 1 a0 a1)) ∧
    (∀ a0 a1 a2, find_roots_sturm lin quad cub quart [a0, a1, a2] =
      some (cub 1 a0 a1 a2)) ∧
    (∀ a0 a1 a2 a3, find_roots_sturm lin quad cub quart [a0, a1, a2, a3] =
      some (quart 1 a0 a1 a2 a3)) ∧
    (∀ a : List ℚ, 5 ≤ a.length → find_roots_sturm lin quad cub quart a = none) := by
  refine ⟨rfl, fun a0 => rfl, fun a0 a1 => rfl, fun a0 a1 a2 => rfl,
    fun a0 a1 a2 a3 => rfl, ?_⟩
  intro a ha
  rcases a with _ | ⟨a0, _ | ⟨a1, _ | ⟨a2, _ | ⟨a3, _ | ⟨a4, rest⟩⟩⟩⟩⟩ <;>
    simp only [List.length_nil, List.length_cons] at ha <;> try omega
  rfl

/-- C6 witness: a length-5 coefficient sequence yields an absent result
for a concrete choice of the four solver parameters. -/
theorem find_roots_sturm_dispatch_witness :
    find_roots_sturm (fun _ b => Roots.one b) (fun _ b c => Roots.two b c)
        (fun _ b c d => Roots.three b c d) (fun _ b c d e => Roots.four b c d e)
        [1, 1, 1, 1, 1] = none :=
  (find_roots_sturm_dispatch (fun _ b => Roots.one b) (fun _ b c => Roots.two b c)
      (fun _ b c d => Roots.three b c d)
      (fun _ b c d e => Roots.four b c d e)).2.2.2.2.2
    [1, 1, 1, 1, 1] (by norm_num)

end RootsLib
